import Mathlib

/-!
Verification of the `deepEqual` structural-equality predicate
(`src/deepEqual/deepEqual.js`) against its specification.

The JavaScript value universe is shallowly embedded as the inductive type
`JSVal`.  Arrays and map-like objects carry an explicit reference id
(`ref`): two structurally identical values built with distinct ids model
two distinct JS objects, while strict equality (`===`) on compounds is
modelled as equality of the whole Lean term, so `deepEqual v v` is the
same-reference case.

To keep every function structurally recursive (hence executable and
kernel-reducible), array elements and object fields are stored as inline
cons-chains (`vcons`/`fcons`) rather than nested `List`s; `mkArr`/`mkObj`
build well-formed values from ordinary Lean lists and are used everywhere
in the theorems.  Chain constructors appearing outside an `arr`/`obj`
payload are junk values that never arise from JS data; they are classified
as primitives of runtime kind "undefined" and are inert.

JS numbers are modelled as `Int` together with an explicit `nan` value:
`NaN` is the one value for which `===` (and `==`) is not reflexive, and
the comparators observe that.  Finite non-integer numbers are not
modelled; no claim depends on them, and in this program they behave like
any other same-kind primitive value.  `ToNumber` on
strings is modelled for optional-sign decimal integer literals, other
numeric syntaxes are treated as NaN.  String comparison used by the
default `Array.prototype.sort` comparator is code-point lexicographic
order, which agrees with JS code-unit order on the ASCII data involved
here, and the sort itself is modelled by a stable insertion sort, matching
the stable sort of modern JS engines.  Property lookup ignores the
prototype chain.
-/

namespace DeepEqualJS

/-- The embedded JavaScript value universe (see the module comment). -/
inductive JSVal where
  | null
  | undef
  | bool (b : Bool)
  | num (n : Int)
  | nan
  | str (s : String)
  | arr (ref : Nat) (elems : JSVal)
  | obj (ref : Nat) (fields : JSVal)
  | func (ref : Nat)
  | vnil
  | vcons (head tail : JSVal)
  | fnil
  | fcons (key : String) (val rest : JSVal)
deriving DecidableEq

namespace JSVal

/-- Encode a Lean list of values as a `vcons` chain (array payload). -/
def encodeElems : List JSVal → JSVal
  | [] => vnil
  | v :: r => vcons v (encodeElems r)

/-- Encode a Lean association list as an `fcons` chain (object payload). -/
def encodeFields : List (String × JSVal) → JSVal
  | [] => fnil
  | (k, v) :: r => fcons k v (encodeFields r)

/-- A JS array with reference id `ref` and the given elements. -/
def mkArr (ref : Nat) (l : List JSVal) : JSVal := arr ref (encodeElems l)

/-- A JS map-like object with reference id `ref` and the given fields
(insertion order is the list order). -/
def mkObj (ref : Nat) (l : List (String × JSVal)) : JSVal := obj ref (encodeFields l)

/-- Decode a `vcons` chain back to a list (junk tails end the list). -/
def decodeElems : JSVal → List JSVal
  | vcons h t => h :: decodeElems t
  | _ => []

/-- Decode an `fcons` chain back to an association list. -/
def decodeFields : JSVal → List (String × JSVal)
  | fcons k v r => (k, v) :: decodeFields r
  | _ => []

/-- Structural size, used as recursion fuel for the comparator loops. -/
def jsSize : JSVal → Nat
  | arr _ es => 1 + jsSize es
  | obj _ fs => 1 + jsSize fs
  | vcons h t => 1 + jsSize h + jsSize t
  | fcons _ v r => 1 + jsSize v + jsSize r
  | _ => 1

end JSVal

open JSVal

/-- JS `typeof`.  `typeof null` is `"object"`; chain junk is classified as
`"undefined"` (it never arises from JS data). -/
def jsTypeof : JSVal → String
  | JSVal.null => "object"
  | JSVal.undef => "undefined"
  | JSVal.bool _ => "boolean"
  | JSVal.num _ => "number"
  | JSVal.nan => "number"
  | JSVal.str _ => "string"
  | JSVal.arr _ _ => "object"
  | JSVal.obj _ _ => "object"
  | JSVal.func _ => "function"
  | _ => "undefined"

/-- JS truthiness, as used by `isObject`'s `!!(value && ...)`. -/
def truthy : JSVal → Bool
  | JSVal.null => false
  | JSVal.undef => false
  | JSVal.bool b => b
  | JSVal.num n => n != 0
  | JSVal.nan => false
  | JSVal.str s => s != ""
  | JSVal.arr _ _ => true
  | JSVal.obj _ _ => true
  | JSVal.func _ => true
  | _ => false

/-- Source `isPrimitive`: null is primitive; otherwise primitive iff the
runtime kind is neither "object" nor "function". -/
def isPrimitive (v : JSVal) : Bool :=
  match v with
  | JSVal.null => true
  | _ => if jsTypeof v == "object" || jsTypeof v == "function" then false else true

/-- Source `isObject`: `!!(value && typeof value === "object")`. -/
def isObject (v : JSVal) : Bool :=
  truthy v && (jsTypeof v == "object")

/-- Model of `Array.isArray`. -/
def isArray : JSVal → Bool
  | JSVal.arr _ _ => true
  | _ => false

/-- Runtime kind Object in the sense of the abstract equality algorithm:
arrays, map-like objects and functions. -/
def isObjKind : JSVal → Bool
  | JSVal.arr _ _ => true
  | JSVal.obj _ _ => true
  | JSVal.func _ => true
  | _ => false

/-- A map-like (non-array) object: the inputs on which `nestedObj` is
invoked by the top-level comparator. -/
def isMapObj (v : JSVal) : Bool := isObject v && !isArray v

/-- JS strict equality `===`.  `NaN` is the one value not strictly equal
to itself: either operand being `NaN` gives false.  Otherwise primitives
compare by value; compounds and functions compare by reference, i.e. two
JS expressions denote the same object exactly when the embedding produces
the same term (same `ref` and, since a reference determines its contents,
the same payload). -/
def strictEq (a b : JSVal) : Bool :=
  if a = JSVal.nan ∨ b = JSVal.nan then false else a == b

/-- Model of `String(v)` (and the element conversion inside `Array.prototype.join`,
which maps null/undefined elements to the empty string).  On a chain
constructor this returns the comma-joined element list, which is exactly
`Array.prototype.toString` of the corresponding array payload. -/
def jsToStringRaw : JSVal → String
  | JSVal.null => "null"
  | JSVal.undef => "undefined"
  | JSVal.bool b => if b then "true" else "false"
  | JSVal.num n => toString n
  | JSVal.nan => "NaN"
  | JSVal.str s => s
  | JSVal.arr _ es => jsToStringRaw es
  | JSVal.obj _ _ => "[object Object]"
  | JSVal.func _ => "function"
  | JSVal.vnil => ""
  | JSVal.vcons h t =>
    (match h with
     | JSVal.null => ""
     | JSVal.undef => ""
     | _ => jsToStringRaw h) ++
    (match t with
     | JSVal.vnil => ""
     | _ => "," ++ jsToStringRaw t)
  | JSVal.fnil => ""
  | JSVal.fcons _ _ _ => ""

/-- Stringification `String(v)` of a JS value. -/
def jsToString (v : JSVal) : String := jsToStringRaw v

/-- Strict lexicographic order on char lists (JS `<` on strings, which is
code-unit order; identical to code-point order on the ASCII data here). -/
def strLt : List Char → List Char → Bool
  | [], [] => false
  | [], _ :: _ => true
  | _ :: _, [] => false
  | c :: cs, d :: ds => if c < d then true else if d < c then false else strLt cs ds

/-- JS string comparison `s < t`. -/
def strLtB (s t : String) : Bool := strLt s.data t.data

/-- The non-strict comparison used to model the default sort: `a ≼ b` iff
`¬(b < a)`. -/
def rStr (a b : String) : Prop := strLtB b a = false

instance : DecidableRel rStr := fun s t => inferInstanceAs (Decidable (strLtB t s = false))

/-- Model of `Object.keys(v).sort()`: stable insertion sort in string order. -/
def sortStrs (l : List String) : List String := List.insertionSort rStr l

/-- The string the default sort comparator sees for an `Object.entries`
pair `[k, v]`: `String([k, v]) = k + "," + (v null/undefined ? "" : String(v))`. -/
def entryStr (e : String × JSVal) : String :=
  e.1 ++ "," ++
  (match e.2 with
   | JSVal.null => ""
   | JSVal.undef => ""
   | w => jsToString w)

/-- Sort order on entry pairs induced by their stringification. -/
def rEnt (e1 e2 : String × JSVal) : Prop := strLtB (entryStr e2) (entryStr e1) = false

instance : DecidableRel rEnt := fun e1 e2 => inferInstanceAs (Decidable (strLtB (entryStr e2) (entryStr e1) = false))

/-- Model of `Object.entries(v).sort()`: stable insertion sort of the entry pairs
by their stringification (ties keep insertion order, as in JS engines). -/
def sortEntries (l : List (String × JSVal)) : List (String × JSVal) :=
  List.insertionSort rEnt l

/-- Index keys `"start", "start+1", ...` paired with successive elements,
modelling `Object.entries` of an array. -/
def indexEntries (start : Nat) : List JSVal → List (String × JSVal)
  | [] => []
  | v :: rest => (toString start, v) :: indexEntries (start + 1) rest

/-- Model of `Object.entries(v)` (unsorted): an object's own fields in insertion
order; an array's index/element pairs; empty for primitives. -/
def jsEntries : JSVal → List (String × JSVal)
  | JSVal.obj _ fs => decodeFields fs
  | JSVal.arr _ es => indexEntries 0 (decodeElems es)
  | _ => []

/-- Model of `Object.keys(v)` (unsorted). -/
def jsKeys (v : JSVal) : List String := (jsEntries v).map Prod.fst

/-- Property access `v[k]`: the first own entry named `k`, `undefined` if
absent (the prototype chain is not modelled). -/
def getProp (v : JSVal) (k : String) : JSVal :=
  match (jsEntries v).find? (fun e => e.1 == k) with
  | some e => e.2
  | none => JSVal.undef

/-- Boolean to number: `ToNumber(true) = 1`, `ToNumber(false) = 0`. -/
def bNum (b : Bool) : Int := if b then 1 else 0

/-- Decimal digit accumulator for `strToNum`. -/
def parseDigitsAux (acc : Nat) : List Char → Option Nat
  | [] => some acc
  | c :: rest => if c.isDigit then parseDigitsAux (acc * 10 + (c.toNat - 48)) rest else none

/-- Whitespace for the purposes of `ToNumber` trimming. -/
def isSpaceChar (c : Char) : Bool := c == ' ' || c == '\t' || c == '\n' || c == '\r'

/-- Strip leading and trailing whitespace from a char list. -/
def trimChars (l : List Char) : List Char :=
  ((l.dropWhile isSpaceChar).reverse.dropWhile isSpaceChar).reverse

/-- JS `ToNumber` on strings, restricted to the model: trimmed empty
string is 0, optional-sign decimal integer literals parse, everything else
is NaN (`none`). -/
def strToNum (s : String) : Option Int :=
  match trimChars s.data with
  | [] => some 0
  | '-' :: ds =>
    if ds = [] then none
    else (parseDigitsAux 0 ds).map (fun n => -(n : Int))
  | '+' :: ds =>
    if ds = [] then none
    else (parseDigitsAux 0 ds).map (fun n => (n : Int))
  | ds => (parseDigitsAux 0 ds).map (fun n => (n : Int))

/-- JS loose (abstract) equality `==` on the embedded domain.  Same-kind
operands compare as `===` (references for Object kinds); `null`/`undefined`
equal each other only; numbers and strings compare via `ToNumber`;
booleans convert to numbers; Object-kind operands against
number/string/boolean convert via `ToPrimitive` (stringification here).
Mixed arms are written in a symmetric normal form. -/
def looseEq : JSVal → JSVal → Bool
  | JSVal.null, JSVal.null => true
  | JSVal.null, JSVal.undef => true
  | JSVal.undef, JSVal.null => true
  | JSVal.undef, JSVal.undef => true
  | JSVal.bool x, JSVal.bool y => x == y
  | JSVal.num x, JSVal.num y => x == y
  | JSVal.str x, JSVal.str y => x == y
  | JSVal.num x, JSVal.str s => strToNum s == some x
  | JSVal.str s, JSVal.num x => strToNum s == some x
  | JSVal.bool b, JSVal.num y => bNum b == y
  | JSVal.num y, JSVal.bool b => bNum b == y
  | JSVal.bool b, JSVal.str s => strToNum s == some (bNum b)
  | JSVal.str s, JSVal.bool b => strToNum s == some (bNum b)
  | JSVal.arr i l, JSVal.arr j m => strictEq (JSVal.arr i l) (JSVal.arr j m)
  | JSVal.arr i l, JSVal.obj j m => strictEq (JSVal.arr i l) (JSVal.obj j m)
  | JSVal.arr i l, JSVal.func j => strictEq (JSVal.arr i l) (JSVal.func j)
  | JSVal.obj i l, JSVal.arr j m => strictEq (JSVal.obj i l) (JSVal.arr j m)
  | JSVal.obj i l, JSVal.obj j m => strictEq (JSVal.obj i l) (JSVal.obj j m)
  | JSVal.obj i l, JSVal.func j => strictEq (JSVal.obj i l) (JSVal.func j)
  | JSVal.func i, JSVal.arr j m => strictEq (JSVal.func i) (JSVal.arr j m)
  | JSVal.func i, JSVal.obj j m => strictEq (JSVal.func i) (JSVal.obj j m)
  | JSVal.func i, JSVal.func j => strictEq (JSVal.func i) (JSVal.func j)
  | JSVal.num x, JSVal.arr j m => strToNum (jsToString (JSVal.arr j m)) == some x
  | JSVal.arr j m, JSVal.num x => strToNum (jsToString (JSVal.arr j m)) == some x
  | JSVal.num x, JSVal.obj j m => strToNum (jsToString (JSVal.obj j m)) == some x
  | JSVal.obj j m, JSVal.num x => strToNum (jsToString (JSVal.obj j m)) == some x
  | JSVal.num x, JSVal.func j => strToNum (jsToString (JSVal.func j)) == some x
  | JSVal.func j, JSVal.num x => strToNum (jsToString (JSVal.func j)) == some x
  | JSVal.str s, JSVal.arr j m => s == jsToString (JSVal.arr j m)
  | JSVal.arr j m, JSVal.str s => s == jsToString (JSVal.arr j m)
  | JSVal.str s, JSVal.obj j m => s == jsToString (JSVal.obj j m)
  | JSVal.obj j m, JSVal.str s => s == jsToString (JSVal.obj j m)
  | JSVal.str s, JSVal.func j => s == jsToString (JSVal.func j)
  | JSVal.func j, JSVal.str s => s == jsToString (JSVal.func j)
  | JSVal.bool b, JSVal.arr j m => strToNum (jsToString (JSVal.arr j m)) == some (bNum b)
  | JSVal.arr j m, JSVal.bool b => strToNum (jsToString (JSVal.arr j m)) == some (bNum b)
  | JSVal.bool b, JSVal.obj j m => strToNum (jsToString (JSVal.obj j m)) == some (bNum b)
  | JSVal.obj j m, JSVal.bool b => strToNum (jsToString (JSVal.obj j m)) == some (bNum b)
  | JSVal.bool b, JSVal.func j => strToNum (jsToString (JSVal.func j)) == some (bNum b)
  | JSVal.func j, JSVal.bool b => strToNum (jsToString (JSVal.func j)) == some (bNum b)
  | _, _ => false

/-- The loop body of `testKeys`: for each key `k` of `val1` in sorted
order, `val1[k] != val2[k]` (loose) either recurses when both values are
arrays or rejects; loosely equal values of different runtime kinds are
rejected; otherwise continue.  The recursive call is abstracted as `recF`
so the loop is structurally recursive on the key list. -/
def testKeysGo (recF : JSVal → JSVal → Bool) (v1 v2 : JSVal) : List String → Bool
  | [] => true
  | k :: ks =>
    if looseEq (getProp v1 k) (getProp v2 k) = false then
      if isArray (getProp v1 k) && isArray (getProp v2 k) then
        recF (getProp v1 k) (getProp v2 k)
      else false
    else if jsTypeof (getProp v1 k) != jsTypeof (getProp v2 k) then false
    else testKeysGo recF v1 v2 ks

/-- Source `testKeys`, with explicit recursion fuel (any fuel at least
`jsSize v1 + jsSize v2` computes the true value; see `testKeysF_fuel`).
Sorted key lists of different lengths reject, then the loop runs. -/
def testKeysF : Nat → JSVal → JSVal → Bool :=
  Nat.rec (motive := fun _ => JSVal → JSVal → Bool) (fun _ _ => false)
    (fun _ ih v1 v2 =>
      if (sortStrs (jsKeys v1)).length ≠ (sortStrs (jsKeys v2)).length then false
      else testKeysGo ih v1 v2 (sortStrs (jsKeys v1)))

/-- Source `testKeys` (sequence/key comparator). -/
def testKeys (v1 v2 : JSVal) : Bool := testKeysF (jsSize v1 + jsSize v2) v1 v2

/-- Source `nestedObj` (map comparator), with explicit recursion fuel.
`Option Bool` is the returned value, `none` modelling the absence of a
`return` (JS `undefined`).  In the source, every iteration of the entry
loop returns: the null-key base cases can never fire (entry keys are
strings), and the three `isObject` cases on the pair of values are
exhaustive, each ending in `return`.  The loop therefore reduces to
inspecting the first sorted entry; when both entry lists are empty the
loop body never runs and control falls off the function (`none`). -/
def nestedObjF : Nat → JSVal → JSVal → Option Bool :=
  Nat.rec (motive := fun _ => JSVal → JSVal → Option Bool) (fun _ _ => none)
    (fun _ ih t1 t2 =>
      if isObject t1 && isObject t2 then
        if (sortEntries (jsEntries t1)).length ≠ (sortEntries (jsEntries t2)).length then
          some false
        else
          match sortEntries (jsEntries t1), sortEntries (jsEntries t2) with
          | (_, w1) :: _, (_, w2) :: _ =>
            if isObject w1 && isObject w2 then ih w1 w2
            else if isObject w1 || isObject w2 then some false
            else some (testKeys t1 t2)
          | _, _ => none
      else none)

/-- Source `nestedObj` (map comparator). -/
def nestedObj (t1 t2 : JSVal) : Option Bool := nestedObjF (jsSize t1 + jsSize t2) t1 t2

/-- Source `deepEqual` (top-level comparator).  `none` models the fall
through without an explicit `return`.  Note the source's duplicated
`Array.isArray(val1)` test in the non-array branch condition, preserved
here. -/
def deepEqual (val1 val2 : JSVal) : Option Bool :=
  if strictEq val1 val2 then some true
  else if isPrimitive val1 && isPrimitive val2 then some (strictEq val1 val2)
  else if (isPrimitive val1 && (jsTypeof val2 == "object"))
      || (isPrimitive val2 && (jsTypeof val1 == "object")) then some false
  else if isObject val1 && isObject val2 then
    if isArray val1 != isArray val2 then some false
    else if isArray val1 == false && isArray val1 == false then nestedObj val1 val2
    else some (testKeys val1 val2)
  else none

/-! ## Basic lemmas about the embedding -/

theorem jsSize_pos (v : JSVal) : 1 ≤ jsSize v := by
  cases v <;> simp [jsSize] <;> omega

theorem decodeElems_encodeElems (l : List JSVal) : decodeElems (encodeElems l) = l := by
  induction l with
  | nil => rfl
  | cons v r ih => simp [encodeElems, decodeElems, ih]

theorem decodeFields_encodeFields (l : List (String × JSVal)) :
    decodeFields (encodeFields l) = l := by
  induction l with
  | nil => rfl
  | cons e r ih => obtain ⟨k, v⟩ := e; simp [encodeFields, decodeFields, ih]

theorem jsEntries_mkObj (i : Nat) (l : List (String × JSVal)) :
    jsEntries (mkObj i l) = l := by
  simp [mkObj, jsEntries, decodeFields_encodeFields]

theorem jsEntries_mkArr (i : Nat) (l : List JSVal) :
    jsEntries (mkArr i l) = indexEntries 0 l := by
  simp [mkArr, jsEntries, decodeElems_encodeElems]

theorem jsSize_lt_of_mem_decodeFields {k : String} {w : JSVal} :
    ∀ fs : JSVal, (k, w) ∈ decodeFields fs → jsSize w < jsSize fs := by
  intro fs
  induction fs
  case fcons k' v r ihv ihr =>
    intro h
    rcases List.mem_cons.mp h with h1 | h2
    · injection h1 with e1 e2
      subst e2
      simp [jsSize]; omega
    · have := ihr h2
      simp only [jsSize]; omega
  all_goals exact fun h => absurd h (List.not_mem_nil _)

theorem jsSize_lt_of_mem_decodeElems {w : JSVal} :
    ∀ es : JSVal, w ∈ decodeElems es → jsSize w < jsSize es := by
  intro es
  induction es
  case vcons h' t iha ihb =>
    intro h
    rcases List.mem_cons.mp h with h1 | h2
    · subst h1; simp [jsSize]; omega
    · have := ihb h2
      simp only [jsSize]; omega
  all_goals exact fun h => absurd h (List.not_mem_nil _)

theorem mem_of_mem_indexEntries {k : String} {w : JSVal} :
    ∀ {l : List JSVal} {n : Nat}, (k, w) ∈ indexEntries n l → w ∈ l := by
  intro l
  induction l with
  | nil => intro n h; exact absurd h (List.not_mem_nil _)
  | cons v r ih =>
    intro n h
    rcases List.mem_cons.mp h with h1 | h2
    · injection h1 with e1 e2
      subst e2
      exact List.mem_cons_self _ _
    · exact List.mem_cons_of_mem _ (ih h2)

theorem jsSize_lt_of_mem_jsEntries {k : String} {w v : JSVal}
    (h : (k, w) ∈ jsEntries v) : jsSize w < jsSize v := by
  cases v with
  | obj i fs =>
    have := jsSize_lt_of_mem_decodeFields fs (by simpa [jsEntries] using h)
    simp [jsSize]; omega
  | arr i es =>
    have hw : w ∈ decodeElems es := mem_of_mem_indexEntries (by simpa [jsEntries] using h)
    have := jsSize_lt_of_mem_decodeElems es hw
    simp [jsSize]; omega
  | _ => exact absurd h (List.not_mem_nil _)

theorem sortEntries_perm (l : List (String × JSVal)) :
    List.Perm (sortEntries l) l :=
  List.perm_insertionSort _ l

theorem mem_of_mem_sortEntries {e : String × JSVal} {l : List (String × JSVal)}
    (h : e ∈ sortEntries l) : e ∈ l :=
  (sortEntries_perm l).mem_iff.mp h

theorem sortStrs_perm (l : List String) : List.Perm (sortStrs l) l :=
  List.perm_insertionSort _ l

theorem getProp_eq_undef_or_mem (v : JSVal) (k : String) :
    getProp v k = JSVal.undef ∨ ∃ k', (k', getProp v k) ∈ jsEntries v := by
  rw [getProp]
  cases hf : (jsEntries v).find? (fun e => e.1 == k) with
  | none => exact Or.inl rfl
  | some e =>
    refine Or.inr ⟨e.1, ?_⟩
    have := List.mem_of_find?_eq_some hf
    simpa using this

theorem jsSize_getProp_le (v : JSVal) (k : String) : jsSize (getProp v k) ≤ jsSize v := by
  rcases getProp_eq_undef_or_mem v k with h | ⟨k', h⟩
  · rw [h]; simpa [jsSize] using jsSize_pos v
  · exact Nat.le_of_lt (jsSize_lt_of_mem_jsEntries h)

theorem jsSize_getProp_lt_of_isArray {v : JSVal} (k : String)
    (h : isArray (getProp v k) = true) : jsSize (getProp v k) < jsSize v := by
  rcases getProp_eq_undef_or_mem v k with h0 | ⟨k', hm⟩
  · rw [h0] at h; simp [isArray] at h
  · exact jsSize_lt_of_mem_jsEntries hm

/-! ## Fuel stability and unfolding equations -/

theorem testKeysF_succ (n : Nat) (v1 v2 : JSVal) :
    testKeysF (n + 1) v1 v2 =
      if (sortStrs (jsKeys v1)).length ≠ (sortStrs (jsKeys v2)).length then false
      else testKeysGo (testKeysF n) v1 v2 (sortStrs (jsKeys v1)) := rfl

theorem nestedObjF_succ (n : Nat) (t1 t2 : JSVal) :
    nestedObjF (n + 1) t1 t2 =
      (if isObject t1 && isObject t2 then
        if (sortEntries (jsEntries t1)).length ≠ (sortEntries (jsEntries t2)).length then
          some false
        else
          match sortEntries (jsEntries t1), sortEntries (jsEntries t2) with
          | (_, w1) :: _, (_, w2) :: _ =>
            if isObject w1 && isObject w2 then nestedObjF n w1 w2
            else if isObject w1 || isObject w2 then some false
            else some (testKeys t1 t2)
          | _, _ => none
      else none) := rfl

/-- The `testKeys` loop only evaluates its recursion parameter on pairs of
looked-up values that are loosely unequal arrays, so two parameters
agreeing there give the same loop result. -/
theorem testKeysGo_rec_congr {recF recG : JSVal → JSVal → Bool} {v1 v2 : JSVal}
    (h : ∀ k : String, looseEq (getProp v1 k) (getProp v2 k) = false →
      isArray (getProp v1 k) = true → isArray (getProp v2 k) = true →
      recF (getProp v1 k) (getProp v2 k) = recG (getProp v1 k) (getProp v2 k)) :
    ∀ ks : List String, testKeysGo recF v1 v2 ks = testKeysGo recG v1 v2 ks := by
  intro ks
  induction ks with
  | nil => rfl
  | cons k ks ih =>
    rw [testKeysGo, testKeysGo]
    by_cases hl : looseEq (getProp v1 k) (getProp v2 k) = false
    · rw [if_pos hl, if_pos hl]
      by_cases ha : isArray (getProp v1 k) && isArray (getProp v2 k)
      · rw [if_pos ha, if_pos ha]
        have ⟨ha1, ha2⟩ := Bool.and_eq_true_iff.mp ha
        exact h k hl ha1 ha2
      · rw [if_neg ha, if_neg ha]
    · rw [if_neg hl, if_neg hl]
      by_cases ht : (jsTypeof (getProp v1 k) != jsTypeof (getProp v2 k)) = true
      · rw [if_pos ht, if_pos ht]
      · rw [if_neg ht, if_neg ht]; exact ih

/-- Any two sufficient fuels compute the same `testKeys` value. -/
theorem testKeysF_fuel : ∀ n m (v1 v2 : JSVal),
    jsSize v1 + jsSize v2 ≤ n → jsSize v1 + jsSize v2 ≤ m →
    testKeysF n v1 v2 = testKeysF m v1 v2 := by
  intro n
  induction n with
  | zero =>
    intro m v1 v2 h1 _
    have := jsSize_pos v1; have := jsSize_pos v2; omega
  | succ n ih =>
    intro m v1 v2 h1 h2
    cases m with
    | zero => have := jsSize_pos v1; have := jsSize_pos v2; omega
    | succ m =>
      rw [testKeysF_succ, testKeysF_succ]
      by_cases hL : (sortStrs (jsKeys v1)).length ≠ (sortStrs (jsKeys v2)).length
      · rw [if_pos hL, if_pos hL]
      · rw [if_neg hL, if_neg hL]
        refine testKeysGo_rec_congr (fun k hl ha1 ha2 => ?_) _
        have hlt1 := jsSize_getProp_lt_of_isArray (v := v1) k ha1
        have hlt2 := jsSize_getProp_lt_of_isArray (v := v2) k ha2
        exact ih m _ _ (by omega) (by omega)

/-- Unfolding equation for `testKeys`: the length check followed by the
key loop, whose recursive calls are `testKeys` itself. -/
theorem testKeys_eq (v1 v2 : JSVal) :
    testKeys v1 v2 =
      if (sortStrs (jsKeys v1)).length ≠ (sortStrs (jsKeys v2)).length then false
      else testKeysGo testKeys v1 v2 (sortStrs (jsKeys v1)) := by
  have hp1 := jsSize_pos v1; have hp2 := jsSize_pos v2
  obtain ⟨n, hn⟩ : ∃ n, jsSize v1 + jsSize v2 = n + 1 :=
    ⟨jsSize v1 + jsSize v2 - 1, by omega⟩
  rw [testKeys, hn, testKeysF_succ]
  by_cases hL : (sortStrs (jsKeys v1)).length ≠ (sortStrs (jsKeys v2)).length
  · rw [if_pos hL, if_pos hL]
  · rw [if_neg hL, if_neg hL]
    refine testKeysGo_rec_congr (fun k hl ha1 ha2 => ?_) _
    have hlt1 := jsSize_getProp_lt_of_isArray (v := v1) k ha1
    have hlt2 := jsSize_getProp_le v2 k
    exact testKeysF_fuel n _ _ _ (by omega) (by omega)

/-- Any two sufficient fuels compute the same `nestedObj` value. -/
theorem nestedObjF_fuel : ∀ n m (t1 t2 : JSVal),
    jsSize t1 + jsSize t2 ≤ n → jsSize t1 + jsSize t2 ≤ m →
    nestedObjF n t1 t2 = nestedObjF m t1 t2 := by
  intro n
  induction n with
  | zero =>
    intro m t1 t2 h1 _
    have := jsSize_pos t1; have := jsSize_pos t2; omega
  | succ n ih =>
    intro m t1 t2 h1 h2
    cases m with
    | zero => have := jsSize_pos t1; have := jsSize_pos t2; omega
    | succ m =>
      rw [nestedObjF_succ, nestedObjF_succ]
      by_cases hO : isObject t1 && isObject t2
      · rw [if_pos hO, if_pos hO]
        by_cases hL : (sortEntries (jsEntries t1)).length = (sortEntries (jsEntries t2)).length
        · rw [if_neg (by omega), if_neg (by omega)]
          cases he1 : sortEntries (jsEntries t1) with
          | nil => cases he2 : sortEntries (jsEntries t2) <;> rfl
          | cons e1 r1 =>
            cases he2 : sortEntries (jsEntries t2) with
            | nil => rfl
            | cons e2 r2 =>
              obtain ⟨k1, w1⟩ := e1; obtain ⟨k2, w2⟩ := e2
              have hm1 : (k1, w1) ∈ jsEntries t1 :=
                mem_of_mem_sortEntries (he1 ▸ List.mem_cons_self _ _)
              have hm2 : (k2, w2) ∈ jsEntries t2 :=
                mem_of_mem_sortEntries (he2 ▸ List.mem_cons_self _ _)
              have hs1 := jsSize_lt_of_mem_jsEntries hm1
              have hs2 := jsSize_lt_of_mem_jsEntries hm2
              simp only
              by_cases hw : isObject w1 && isObject w2
              · rw [if_pos hw, if_pos hw]
                exact ih m _ _ (by omega) (by omega)
              · rw [if_neg hw, if_neg hw]
        · rw [if_pos (by omega), if_pos (by omega)]
      · rw [if_neg hO, if_neg hO]

/-! ## Classifier and equality lemmas -/

theorem isPrimitive_eq_not_isObjKind (v : JSVal) : isPrimitive v = !isObjKind v := by
  cases v <;> rfl

theorem isObject_eq_false_of_isPrimitive {v : JSVal} (h : isPrimitive v = true) :
    isObject v = false := by
  cases v <;> simp_all [isPrimitive, isObject, truthy, jsTypeof]

theorem isPrimitive_shape {v : JSVal} (h : isPrimitive v = false) :
    jsTypeof v = "object" ∨ jsTypeof v = "function" := by
  cases v <;> simp_all [isPrimitive, jsTypeof]

theorem eq_arr_of_isArray {v : JSVal} (h : isArray v = true) :
    ∃ i es, v = JSVal.arr i es := by
  cases v
  case arr i es => exact ⟨i, es, rfl⟩
  all_goals exact Bool.noConfusion h

theorem eq_func_of_jsTypeof {v : JSVal} (h : jsTypeof v = "function") :
    ∃ i, v = JSVal.func i := by
  cases v
  case func i => exact ⟨i, rfl⟩
  all_goals first
    | exact absurd h (show ("object" : String) ≠ "function" by decide)
    | exact absurd h (show ("undefined" : String) ≠ "function" by decide)
    | exact absurd h (show ("boolean" : String) ≠ "function" by decide)
    | exact absurd h (show ("number" : String) ≠ "function" by decide)
    | exact absurd h (show ("string" : String) ≠ "function" by decide)

theorem eq_obj_of_isMapObj {v : JSVal} (h : isMapObj v = true) :
    ∃ i fs, v = JSVal.obj i fs := by
  cases v
  case obj i fs => exact ⟨i, fs, rfl⟩
  all_goals first
    | exact Bool.noConfusion h
    | simp [isMapObj, isObject, isArray, truthy, jsTypeof] at h

theorem isObject_arr (i : Nat) (es : JSVal) : isObject (JSVal.arr i es) = true := rfl

theorem isObject_obj (i : Nat) (fs : JSVal) : isObject (JSVal.obj i fs) = true := rfl

theorem isObject_shape {v : JSVal} (h : isObject v = true) :
    (∃ i es, v = JSVal.arr i es) ∨ ∃ i fs, v = JSVal.obj i fs := by
  cases v
  case arr i es => exact Or.inl ⟨i, es, rfl⟩
  case obj i fs => exact Or.inr ⟨i, fs, rfl⟩
  all_goals first
    | exact Bool.noConfusion h
    | simp [isObject, truthy, jsTypeof] at h

theorem strictEq_refl_of_ne_nan {v : JSVal} (h : v ≠ JSVal.nan) :
    strictEq v v = true := by
  rw [strictEq, if_neg (by simp [h])]
  simp

theorem strictEq_nan_left (b : JSVal) : strictEq JSVal.nan b = false := by
  rw [strictEq, if_pos (Or.inl rfl)]

theorem strictEq_false_of_ne {a b : JSVal} (h : a ≠ b) : strictEq a b = false := by
  rw [strictEq]
  by_cases hn : a = JSVal.nan ∨ b = JSVal.nan
  · rw [if_pos hn]
  · rw [if_neg hn]
    exact beq_eq_false_iff_ne.mpr h

theorem beqComm {α : Type} [BEq α] [LawfulBEq α] (x y : α) : (x == y) = (y == x) := by
  by_cases h : x = y
  · subst h; rfl
  · rw [beq_eq_false_iff_ne.mpr h, beq_eq_false_iff_ne.mpr (Ne.symm h)]

theorem bneComm {α : Type} [BEq α] [LawfulBEq α] (x y : α) : (x != y) = (y != x) := by
  simp only [bne, beqComm x y]

theorem strictEq_symm (a b : JSVal) : strictEq a b = strictEq b a := by
  rw [strictEq, strictEq]
  by_cases h : a = JSVal.nan ∨ b = JSVal.nan
  · rw [if_pos h, if_pos (Or.symm h)]
  · rw [if_neg h, if_neg (fun hh => h (Or.symm hh)), beqComm]

theorem looseEq_symm (a b : JSVal) : looseEq a b = looseEq b a := by
  cases a <;> cases b <;>
    first
      | rfl
      | exact beqComm (α := Bool) _ _
      | exact beqComm (α := Int) _ _
      | exact beqComm (α := String) _ _
      | exact strictEq_symm _ _

/-! ## Symmetry of the sequence comparator on arrays -/

theorem indexEntries_map_fst_eq_of_length :
    ∀ (l1 l2 : List JSVal) (n : Nat), l1.length = l2.length →
      (indexEntries n l1).map Prod.fst = (indexEntries n l2).map Prod.fst := by
  intro l1
  induction l1 with
  | nil =>
    intro l2 n h
    cases l2 with
    | nil => rfl
    | cons v r => simp at h
  | cons v r ih =>
    intro l2 n h
    cases l2 with
    | nil => simp at h
    | cons w s =>
      simp only [indexEntries, List.map_cons]
      rw [ih s (n + 1) (by simpa using h)]

theorem length_map_fst_indexEntries :
    ∀ (l : List JSVal) (n : Nat), ((indexEntries n l).map Prod.fst).length = l.length := by
  intro l
  induction l with
  | nil => intro n; rfl
  | cons v r ih => intro n; simp only [indexEntries, List.map_cons, List.length_cons, ih]

theorem sortStrs_length (l : List String) : (sortStrs l).length = l.length :=
  (sortStrs_perm l).length_eq

theorem sortStrs_jsKeys_arr_length (i : Nat) (es : JSVal) :
    (sortStrs (jsKeys (JSVal.arr i es))).length = (decodeElems es).length := by
  rw [sortStrs_length]
  exact length_map_fst_indexEntries _ _

theorem testKeysGo_symm {recF : JSVal → JSVal → Bool} {v1 v2 : JSVal}
    (hrec : ∀ a b, looseEq a b = false → isArray a = true → isArray b = true →
      recF a b = recF b a) :
    ∀ ks : List String, testKeysGo recF v1 v2 ks = testKeysGo recF v2 v1 ks := by
  intro ks
  induction ks with
  | nil => rfl
  | cons k ks ih =>
    rw [testKeysGo, testKeysGo]
    by_cases hl : looseEq (getProp v1 k) (getProp v2 k) = false
    · have hl' : looseEq (getProp v2 k) (getProp v1 k) = false := by
        rw [looseEq_symm]; exact hl
      rw [if_pos hl, if_pos hl']
      by_cases harr : (isArray (getProp v1 k) && isArray (getProp v2 k)) = true
      · have harr' : (isArray (getProp v2 k) && isArray (getProp v1 k)) = true := by
          rw [Bool.and_comm]; exact harr
        rw [if_pos harr, if_pos harr']
        have ⟨h1, h2⟩ := Bool.and_eq_true_iff.mp harr
        exact hrec _ _ hl h1 h2
      · have harr' : ¬(isArray (getProp v2 k) && isArray (getProp v1 k)) = true := by
          rw [Bool.and_comm]; exact harr
        rw [if_neg harr, if_neg harr']
    · have hl' : ¬looseEq (getProp v2 k) (getProp v1 k) = false := by
        rw [looseEq_symm]; exact hl
      rw [if_neg hl, if_neg hl']
      by_cases ht : (jsTypeof (getProp v1 k) != jsTypeof (getProp v2 k)) = true
      · have ht' : (jsTypeof (getProp v2 k) != jsTypeof (getProp v1 k)) = true := by
          rw [bneComm]; exact ht
        rw [if_pos ht, if_pos ht']
      · have ht' : ¬(jsTypeof (getProp v2 k) != jsTypeof (getProp v1 k)) = true := by
          rw [bneComm]; exact ht
        rw [if_neg ht, if_neg ht']
        exact ih

theorem testKeysF_arr_symm :
    ∀ (n : Nat) (i1 es1 i2 es2 : _),
      testKeysF n (JSVal.arr i1 es1) (JSVal.arr i2 es2) =
        testKeysF n (JSVal.arr i2 es2) (JSVal.arr i1 es1) := by
  intro n
  induction n with
  | zero => intro _ _ _ _; rfl
  | succ n ih =>
    intro i1 es1 i2 es2
    rw [testKeysF_succ, testKeysF_succ]
    by_cases hL : (decodeElems es1).length = (decodeElems es2).length
    · have hkeys : jsKeys (JSVal.arr i1 es1) = jsKeys (JSVal.arr i2 es2) :=
        indexEntries_map_fst_eq_of_length _ _ 0 hL
      rw [hkeys]
      rw [if_neg (fun h => h rfl), if_neg (fun h => h rfl)]
      refine testKeysGo_symm (fun a b hl h1 h2 => ?_) _
      obtain ⟨j1, fs1, rfl⟩ := eq_arr_of_isArray h1
      obtain ⟨j2, fs2, rfl⟩ := eq_arr_of_isArray h2
      exact ih j1 fs1 j2 fs2
    · have hx := sortStrs_jsKeys_arr_length i1 es1
      have hy := sortStrs_jsKeys_arr_length i2 es2
      rw [if_pos (by omega), if_pos (by omega)]

theorem testKeys_arr_symm (i1 es1 i2 es2 : _) :
    testKeys (JSVal.arr i1 es1) (JSVal.arr i2 es2) =
      testKeys (JSVal.arr i2 es2) (JSVal.arr i1 es1) := by
  rw [testKeys, testKeys, Nat.add_comm]
  exact testKeysF_arr_symm _ _ _ _ _

/-! ## Targeted equations for the map comparator -/

theorem nestedObj_not_obj {t1 t2 : JSVal} (h : (isObject t1 && isObject t2) = false) :
    nestedObj t1 t2 = none := by
  have hp1 := jsSize_pos t1; have hp2 := jsSize_pos t2
  obtain ⟨n, hn⟩ : ∃ n, jsSize t1 + jsSize t2 = n + 1 := ⟨jsSize t1 + jsSize t2 - 1, by omega⟩
  rw [nestedObj, hn, nestedObjF_succ, if_neg (by simp [h])]

theorem nestedObj_len_ne {t1 t2 : JSVal} (hO1 : isObject t1 = true) (hO2 : isObject t2 = true)
    (hL : (sortEntries (jsEntries t1)).length ≠ (sortEntries (jsEntries t2)).length) :
    nestedObj t1 t2 = some false := by
  have hp1 := jsSize_pos t1; have hp2 := jsSize_pos t2
  obtain ⟨n, hn⟩ : ∃ n, jsSize t1 + jsSize t2 = n + 1 := ⟨jsSize t1 + jsSize t2 - 1, by omega⟩
  rw [nestedObj, hn, nestedObjF_succ, if_pos (by simp [hO1, hO2]), if_pos hL]

theorem nestedObj_empty {t1 t2 : JSVal} (hO1 : isObject t1 = true) (hO2 : isObject t2 = true)
    (he1 : sortEntries (jsEntries t1) = []) (he2 : sortEntries (jsEntries t2) = []) :
    nestedObj t1 t2 = none := by
  have hp1 := jsSize_pos t1; have hp2 := jsSize_pos t2
  obtain ⟨n, hn⟩ : ∃ n, jsSize t1 + jsSize t2 = n + 1 := ⟨jsSize t1 + jsSize t2 - 1, by omega⟩
  rw [nestedObj, hn, nestedObjF_succ, if_pos (by simp [hO1, hO2]),
    if_neg (by rw [he1, he2]; exact fun hh => hh rfl), he1, he2]

/-- The map comparator decides everything on the first sorted entry pair:
recurse when both values are compounds, reject when exactly one is, and
otherwise hand the two whole objects to the sequence comparator. -/
theorem nestedObj_first_pair {t1 t2 : JSVal} {k1 k2 : String} {w1 w2 : JSVal}
    {r1 r2 : List (String × JSVal)}
    (hO1 : isObject t1 = true) (hO2 : isObject t2 = true)
    (he1 : sortEntries (jsEntries t1) = (k1, w1) :: r1)
    (he2 : sortEntries (jsEntries t2) = (k2, w2) :: r2)
    (hL : (sortEntries (jsEntries t1)).length = (sortEntries (jsEntries t2)).length) :
    nestedObj t1 t2 =
      if isObject w1 && isObject w2 then nestedObj w1 w2
      else if isObject w1 || isObject w2 then some false
      else some (testKeys t1 t2) := by
  have hp1 := jsSize_pos t1; have hp2 := jsSize_pos t2
  obtain ⟨n, hn⟩ : ∃ n, jsSize t1 + jsSize t2 = n + 1 := ⟨jsSize t1 + jsSize t2 - 1, by omega⟩
  rw [nestedObj, hn, nestedObjF_succ, if_pos (by simp [hO1, hO2]), if_neg (by omega), he1, he2]
  show (if isObject w1 && isObject w2 then nestedObjF n w1 w2
      else if isObject w1 || isObject w2 then some false
      else some (testKeys t1 t2)) = _
  by_cases hw : (isObject w1 && isObject w2) = true
  · rw [if_pos hw, if_pos hw]
    have hm1 : (k1, w1) ∈ jsEntries t1 :=
      mem_of_mem_sortEntries (he1 ▸ List.mem_cons_self _ _)
    have hm2 : (k2, w2) ∈ jsEntries t2 :=
      mem_of_mem_sortEntries (he2 ▸ List.mem_cons_self _ _)
    have hs1 := jsSize_lt_of_mem_jsEntries hm1
    have hs2 := jsSize_lt_of_mem_jsEntries hm2
    exact nestedObjF_fuel n _ _ _ (by omega) (by omega)
  · rw [if_neg hw, if_neg hw]

/-! ## Branch equations for the top-level comparator -/

theorem bool_eq_false {b : Bool} (h : ¬b = true) : b = false := by
  cases b
  · rfl
  · exact absurd rfl h

theorem deepEqual_of_strictEq {v1 v2 : JSVal} (h : strictEq v1 v2 = true) :
    deepEqual v1 v2 = some true := by
  rw [deepEqual, if_pos h]

theorem deepEqual_both_prim {v1 v2 : JSVal}
    (h1 : isPrimitive v1 = true) (h2 : isPrimitive v2 = true) :
    deepEqual v1 v2 = some (strictEq v1 v2) := by
  by_cases hs : strictEq v1 v2 = true
  · rw [deepEqual, if_pos hs, hs]
  · rw [deepEqual, if_neg hs, if_pos (by simp [h1, h2])]

theorem isPrimitive_eq_false_of_isObject {v : JSVal} (h : isObject v = true) :
    isPrimitive v = false := by
  rcases isObject_shape h with ⟨i, es, rfl⟩ | ⟨i, fs, rfl⟩ <;> rfl

theorem isObject_of_typeof {v : JSVal} (hp : isPrimitive v = false)
    (ht : jsTypeof v = "object") : isObject v = true := by
  cases v
  case arr i es => rfl
  case obj i fs => rfl
  case null => exact Bool.noConfusion hp
  all_goals first
    | exact absurd ht (show ("undefined" : String) ≠ "object" by decide)
    | exact absurd ht (show ("boolean" : String) ≠ "object" by decide)
    | exact absurd ht (show ("number" : String) ≠ "object" by decide)
    | exact absurd ht (show ("string" : String) ≠ "object" by decide)
    | exact absurd ht (show ("function" : String) ≠ "object" by decide)

theorem deepEqual_prim_obj {v1 v2 : JSVal}
    (hc : ((isPrimitive v1 && (jsTypeof v2 == "object"))
      || (isPrimitive v2 && (jsTypeof v1 == "object"))) = true)
    (hs : strictEq v1 v2 = false)
    (hp : (isPrimitive v1 && isPrimitive v2) = false) :
    deepEqual v1 v2 = some false := by
  rw [deepEqual, if_neg (by simp [hs]), if_neg (by simp [hp]), if_pos hc]

theorem deepEqual_func_left {v1 v2 : JSVal} (h : jsTypeof v1 = "function")
    (hs : strictEq v1 v2 = false) : deepEqual v1 v2 = none := by
  obtain ⟨i, rfl⟩ := eq_func_of_jsTypeof h
  rw [deepEqual, if_neg (by simp [hs])]
  rw [if_neg (show ¬(isPrimitive (JSVal.func i) && isPrimitive v2) = true by
    simp [show isPrimitive (JSVal.func i) = false from rfl])]
  rw [if_neg (show ¬((isPrimitive (JSVal.func i) && (jsTypeof v2 == "object"))
      || (isPrimitive v2 && (jsTypeof (JSVal.func i) == "object"))) = true by
    simp [show isPrimitive (JSVal.func i) = false from rfl,
      show (jsTypeof (JSVal.func i) == "object") = false from rfl])]
  rw [if_neg (show ¬(isObject (JSVal.func i) && isObject v2) = true by
    simp [show isObject (JSVal.func i) = false from rfl])]

theorem deepEqual_func_right {v1 v2 : JSVal} (h : jsTypeof v2 = "function")
    (hs : strictEq v1 v2 = false) : deepEqual v1 v2 = none := by
  obtain ⟨i, rfl⟩ := eq_func_of_jsTypeof h
  rw [deepEqual, if_neg (by simp [hs])]
  rw [if_neg (show ¬(isPrimitive v1 && isPrimitive (JSVal.func i)) = true by
    simp [show isPrimitive (JSVal.func i) = false from rfl])]
  rw [if_neg (show ¬((isPrimitive v1 && (jsTypeof (JSVal.func i) == "object"))
      || (isPrimitive (JSVal.func i) && (jsTypeof v1 == "object"))) = true by
    simp [show isPrimitive (JSVal.func i) = false from rfl,
      show (jsTypeof (JSVal.func i) == "object") = false from rfl])]
  rw [if_neg (show ¬(isObject v1 && isObject (JSVal.func i)) = true by
    simp [show isObject (JSVal.func i) = false from rfl])]

theorem deepEqual_both_obj {v1 v2 : JSVal}
    (hO1 : isObject v1 = true) (hO2 : isObject v2 = true)
    (hs : strictEq v1 v2 = false) :
    deepEqual v1 v2 =
      (if isArray v1 != isArray v2 then some false
       else if isArray v1 == false && isArray v1 == false then nestedObj v1 v2
       else some (testKeys v1 v2)) := by
  have hp1 := isPrimitive_eq_false_of_isObject hO1
  have hp2 := isPrimitive_eq_false_of_isObject hO2
  rw [deepEqual, if_neg (by simp [hs]), if_neg (by simp [hp1]),
    if_neg (by simp [hp1, hp2]), if_pos (by simp [hO1, hO2])]

/-- Symmetry of the top-level comparator away from the one asymmetric
path: whenever the two inputs are not both map-like (non-array) objects,
`deepEqual` is symmetric. -/
theorem deepEqual_symm_of_not_both_mapObj (v1 v2 : JSVal)
    (h : isMapObj v1 = false ∨ isMapObj v2 = false) :
    deepEqual v1 v2 = deepEqual v2 v1 := by
  by_cases hst : strictEq v1 v2 = true
  · have hst' : strictEq v2 v1 = true := by rw [strictEq_symm]; exact hst
    rw [deepEqual_of_strictEq hst, deepEqual_of_strictEq hst']
  · have hsf : strictEq v1 v2 = false := bool_eq_false hst
    have hsf' : strictEq v2 v1 = false := by rw [strictEq_symm]; exact hsf
    by_cases hp1 : isPrimitive v1 = true
    · by_cases hp2 : isPrimitive v2 = true
      · rw [deepEqual_both_prim hp1 hp2, deepEqual_both_prim hp2 hp1, strictEq_symm]
      · have hp2f : isPrimitive v2 = false := bool_eq_false hp2
        rcases isPrimitive_shape hp2f with ht2 | ht2
        · rw [deepEqual_prim_obj (by simp [hp1, ht2]) hsf (by simp [hp2f]),
            deepEqual_prim_obj (by simp [hp1, ht2]) hsf' (by simp [hp2f])]
        · rw [deepEqual_func_right ht2 hsf, deepEqual_func_left ht2 hsf']
    · have hp1f : isPrimitive v1 = false := bool_eq_false hp1
      by_cases hp2 : isPrimitive v2 = true
      · rcases isPrimitive_shape hp1f with ht1 | ht1
        · rw [deepEqual_prim_obj (by simp [hp2, ht1]) hsf (by simp [hp1f]),
            deepEqual_prim_obj (by simp [hp2, ht1]) hsf' (by simp [hp1f])]
        · rw [deepEqual_func_left ht1 hsf, deepEqual_func_right ht1 hsf']
      · have hp2f : isPrimitive v2 = false := bool_eq_false hp2
        rcases isPrimitive_shape hp1f with ht1 | ht1
        · rcases isPrimitive_shape hp2f with ht2 | ht2
          · have hO1 : isObject v1 = true := isObject_of_typeof hp1f ht1
            have hO2 : isObject v2 = true := isObject_of_typeof hp2f ht2
            rw [deepEqual_both_obj hO1 hO2 hsf, deepEqual_both_obj hO2 hO1 hsf']
            cases hA1 : isArray v1 with
            | true =>
              cases hA2 : isArray v2 with
              | true =>
                obtain ⟨i1, es1, rfl⟩ := eq_arr_of_isArray hA1
                obtain ⟨i2, es2, rfl⟩ := eq_arr_of_isArray hA2
                rw [if_neg (by simp), if_neg (by simp)]
                rw [if_neg (by simp), if_neg (by simp)]
                rw [testKeys_arr_symm]
              | false =>
                rw [if_pos (by simp [hA1, hA2]), if_pos (by simp [hA1, hA2])]
            | false =>
              cases hA2 : isArray v2 with
              | true =>
                rw [if_pos (by simp [hA1, hA2]), if_pos (by simp [hA1, hA2])]
              | false =>
                have hM1 : isMapObj v1 = true := by simp [isMapObj, hO1, hA1]
                have hM2 : isMapObj v2 = true := by simp [isMapObj, hO2, hA2]
                rcases h with hcontra | hcontra <;> simp_all
          · rw [deepEqual_func_right ht2 hsf, deepEqual_func_left ht2 hsf']
        · rw [deepEqual_func_left ht1 hsf, deepEqual_func_right ht1 hsf']

/-! ## Order-theoretic facts about the sort comparators -/

theorem strLt_asymm : ∀ as bs : List Char, strLt as bs = true → strLt bs as = false := by
  intro as
  induction as with
  | nil =>
    intro bs h
    cases bs with
    | nil => exact Bool.noConfusion h
    | cons d ds => rfl
  | cons c cs ih =>
    intro bs h
    cases bs with
    | nil => exact Bool.noConfusion h
    | cons d ds =>
      rw [strLt] at h ⊢
      by_cases h1 : c < d
      · rw [if_neg (lt_asymm h1), if_pos h1]
      · rw [if_neg h1] at h
        by_cases h2 : d < c
        · rw [if_pos h2] at h; exact Bool.noConfusion h
        · rw [if_neg h2] at h
          rw [if_neg h2, if_neg h1]
          exact ih ds h

theorem strLt_trans : ∀ as bs cs : List Char,
    strLt as bs = true → strLt bs cs = true → strLt as cs = true := by
  intro as
  induction as with
  | nil =>
    intro bs cs h1 h2
    cases bs with
    | nil => exact Bool.noConfusion h1
    | cons d ds =>
      cases cs with
      | nil => exact Bool.noConfusion h2
      | cons e es => rfl
  | cons c cs ih =>
    intro bs cs2 h1 h2
    cases bs with
    | nil => exact Bool.noConfusion h1
    | cons d ds =>
      cases cs2 with
      | nil => exact Bool.noConfusion h2
      | cons e es =>
        rw [strLt] at h1 h2 ⊢
        by_cases hcd : c < d
        · by_cases hde : d < e
          · rw [if_pos (lt_trans hcd hde)]
          · rw [if_neg hde] at h2
            by_cases hed : e < d
            · rw [if_pos hed] at h2; exact Bool.noConfusion h2
            · have hde' : d = e := le_antisymm (not_lt.mp hed) (not_lt.mp hde)
              subst hde'
              rw [if_pos hcd]
        · rw [if_neg hcd] at h1
          by_cases hdc : d < c
          · rw [if_pos hdc] at h1; exact Bool.noConfusion h1
          · rw [if_neg hdc] at h1
            have hcd' : c = d := le_antisymm (not_lt.mp hdc) (not_lt.mp hcd)
            subst hcd'
            by_cases hce : c < e
            · rw [if_pos hce]
            · rw [if_neg hce] at h2 ⊢
              by_cases hec : e < c
              · rw [if_pos hec] at h2; exact Bool.noConfusion h2
              · rw [if_neg hec] at h2 ⊢
                exact ih ds es h1 h2

theorem strLt_eq_of_not : ∀ as bs : List Char,
    strLt as bs = false → strLt bs as = false → as = bs := by
  intro as
  induction as with
  | nil =>
    intro bs h1 h2
    cases bs with
    | nil => rfl
    | cons d ds => exact Bool.noConfusion h1
  | cons c cs ih =>
    intro bs h1 h2
    cases bs with
    | nil => exact Bool.noConfusion h2
    | cons d ds =>
      rw [strLt] at h1 h2
      by_cases hcd : c < d
      · rw [if_pos hcd] at h1; exact Bool.noConfusion h1
      · rw [if_neg hcd] at h1
        by_cases hdc : d < c
        · rw [if_pos hdc] at h2; exact Bool.noConfusion h2
        · rw [if_neg hdc] at h1
          rw [if_neg hdc, if_neg hcd] at h2
          have hcd' : c = d := le_antisymm (not_lt.mp hdc) (not_lt.mp hcd)
          subst hcd'
          rw [ih ds h1 h2]

theorem strLtB_asymm {s t : String} (h : strLtB s t = true) : strLtB t s = false :=
  strLt_asymm _ _ h

theorem strLtB_trans {s t u : String} (h1 : strLtB s t = true) (h2 : strLtB t u = true) :
    strLtB s u = true :=
  strLt_trans _ _ _ h1 h2

theorem strLtB_antisymm_eq {s t : String} (h1 : strLtB s t = false)
    (h2 : strLtB t s = false) : s = t :=
  String.ext (strLt_eq_of_not _ _ h1 h2)

instance : IsTotal String rStr :=
  ⟨fun a b => by
    by_cases h : strLtB a b = true
    · exact Or.inl (strLtB_asymm h)
    · exact Or.inr (bool_eq_false h)⟩

instance : IsTrans String rStr :=
  ⟨fun a b c hab hbc => by
    have hab' : strLtB b a = false := hab
    have hbc' : strLtB c b = false := hbc
    show strLtB c a = false
    by_cases h : strLtB c a = true
    · by_cases h3 : strLtB b c = true
      · have hba := strLtB_trans h3 h
        rw [hab'] at hba; exact Bool.noConfusion hba
      · have hbceq : b = c := strLtB_antisymm_eq (bool_eq_false h3) hbc'
        subst hbceq
        rw [h] at hab'; exact Bool.noConfusion hab'
    · exact bool_eq_false h⟩

instance : IsAntisymm String rStr :=
  ⟨fun _ _ h1 h2 => strLtB_antisymm_eq h2 h1⟩

instance : IsTotal (String × JSVal) rEnt :=
  ⟨fun a b => IsTotal.total (r := rStr) (entryStr a) (entryStr b)⟩

instance : IsTrans (String × JSVal) rEnt :=
  ⟨fun a b c hab hbc =>
    IsTrans.trans (r := rStr) (entryStr a) (entryStr b) (entryStr c) hab hbc⟩

theorem sortStrs_sorted (l : List String) : (sortStrs l).Sorted rStr :=
  List.sorted_insertionSort rStr l

theorem sortEntries_sorted (l : List (String × JSVal)) : (sortEntries l).Sorted rEnt :=
  List.sorted_insertionSort rEnt l

theorem sortStrs_eq_of_perm {l1 l2 : List String} (hp : List.Perm l1 l2) :
    sortStrs l1 = sortStrs l2 :=
  List.eq_of_perm_of_sorted (((sortStrs_perm l1).trans hp).trans (sortStrs_perm l2).symm)
    (sortStrs_sorted l1) (sortStrs_sorted l2)

/-- Two sorted entry lists that are permutations of each other and whose
entry strings are pairwise distinct coincide (with string ties the stable
sort would instead preserve insertion order). -/
theorem sorted_perm_eq_of_nodup_entryStr :
    ∀ t1 t2 : List (String × JSVal), List.Perm t1 t2 →
      t1.Sorted rEnt → t2.Sorted rEnt → (t1.map entryStr).Nodup → t1 = t2 := by
  intro t1
  induction t1 with
  | nil =>
    intro t2 hp _ _ _
    exact (List.Perm.nil_eq hp).symm ▸ rfl
  | cons a as ih =>
    intro t2 hp hs1 hs2 hnd
    cases t2 with
    | nil => exact absurd hp.eq_nil (by simp)
    | cons b bs =>
      have hab : a = b := by
        rcases List.mem_cons.mp (hp.mem_iff.mp (List.mem_cons_self a as)) with h1 | h1
        · exact h1
        rcases List.mem_cons.mp (hp.symm.mem_iff.mp (List.mem_cons_self b bs)) with h2 | h2
        · exact h2.symm
        have hba : rEnt b a := (List.sorted_cons.mp hs2).1 a h1
        have hab' : rEnt a b := (List.sorted_cons.mp hs1).1 b h2
        have hstr : entryStr a = entryStr b := strLtB_antisymm_eq hba hab'
        have hmem : entryStr b ∈ as.map entryStr := List.mem_map_of_mem _ h2
        rw [← hstr] at hmem
        exact absurd hmem (List.nodup_cons.mp hnd).1
      subst hab
      rw [ih bs hp.cons_inv (List.sorted_cons.mp hs1).2 (List.sorted_cons.mp hs2).2
        (List.nodup_cons.mp hnd).2]

theorem sortEntries_eq_of_perm {l1 l2 : List (String × JSVal)}
    (hp : List.Perm l1 l2) (hnd : (l1.map entryStr).Nodup) :
    sortEntries l1 = sortEntries l2 :=
  sorted_perm_eq_of_nodup_entryStr _ _
    (((sortEntries_perm l1).trans hp).trans (sortEntries_perm l2).symm)
    (sortEntries_sorted l1) (sortEntries_sorted l2)
    (((sortEntries_perm l1).map entryStr).nodup_iff.mpr hnd)

/-! ## Property lookup is insertion-order independent for duplicate-free keys -/

theorem find?_key_of_nodup {k : String} :
    ∀ l : List (String × JSVal), (l.map Prod.fst).Nodup →
      ∀ {e : String × JSVal}, e ∈ l → e.1 = k →
        l.find? (fun x => x.1 == k) = some e := by
  intro l
  induction l with
  | nil => intro _ e he _; exact absurd he (List.not_mem_nil _)
  | cons a as ih =>
    intro hnd e he hek
    rcases List.mem_cons.mp he with rfl | hmem
    · exact List.find?_cons_of_pos _ (by simp [hek])
    · have hk : a.1 ≠ k := by
        intro hh
        have hmm : e.1 ∈ as.map Prod.fst := List.mem_map_of_mem _ hmem
        rw [hek, ← hh] at hmm
        exact absurd hmm (List.nodup_cons.mp hnd).1
      rw [List.find?_cons_of_neg _ (by simp [hk])]
      exact ih (List.nodup_cons.mp hnd).2 hmem hek

theorem getProp_obj_perm {i j : Nat} {l1 l2 : List (String × JSVal)}
    (hp : List.Perm l1 l2) (hnd : (l1.map Prod.fst).Nodup) (k : String) :
    getProp (mkObj i l1) k = getProp (mkObj j l2) k := by
  rw [getProp, getProp, jsEntries_mkObj, jsEntries_mkObj]
  cases hf : l1.find? (fun e => e.1 == k) with
  | some e =>
    have he : e ∈ l1 := List.mem_of_find?_eq_some hf
    have hek : e.1 = k := by simpa using List.find?_some hf
    rw [find?_key_of_nodup l2 ((hp.map Prod.fst).nodup_iff.mp hnd)
      (hp.mem_iff.mp he) hek]
  | none =>
    rw [List.find?_eq_none.mpr (fun e he =>
      List.find?_eq_none.mp hf e (hp.mem_iff.mpr he))]

/-! ## The comparators depend only on sorted keys and the lookup maps -/

theorem testKeysGo_prop_congr {recF : JSVal → JSVal → Bool} {v1 v2 v1' v2' : JSVal}
    (h1 : ∀ k, getProp v1 k = getProp v1' k) (h2 : ∀ k, getProp v2 k = getProp v2' k) :
    ∀ ks : List String, testKeysGo recF v1 v2 ks = testKeysGo recF v1' v2' ks := by
  intro ks
  induction ks with
  | nil => rfl
  | cons k ks ih => rw [testKeysGo, testKeysGo, h1 k, h2 k, ih]

theorem testKeysF_prop_congr {n : Nat} {v1 v2 v1' v2' : JSVal}
    (hk1 : sortStrs (jsKeys v1) = sortStrs (jsKeys v1'))
    (hk2 : sortStrs (jsKeys v2) = sortStrs (jsKeys v2'))
    (h1 : ∀ k, getProp v1 k = getProp v1' k) (h2 : ∀ k, getProp v2 k = getProp v2' k) :
    testKeysF n v1 v2 = testKeysF n v1' v2' := by
  cases n with
  | zero => rfl
  | succ n =>
    rw [testKeysF_succ, testKeysF_succ, hk1, hk2, testKeysGo_prop_congr h1 h2]

theorem testKeys_prop_congr {v1 v2 v1' v2' : JSVal}
    (hk1 : sortStrs (jsKeys v1) = sortStrs (jsKeys v1'))
    (hk2 : sortStrs (jsKeys v2) = sortStrs (jsKeys v2'))
    (h1 : ∀ k, getProp v1 k = getProp v1' k) (h2 : ∀ k, getProp v2 k = getProp v2' k) :
    testKeys v1 v2 = testKeys v1' v2' := by
  rw [testKeys, testKeys]
  rw [testKeysF_fuel (jsSize v1 + jsSize v2)
    (max (jsSize v1 + jsSize v2) (jsSize v1' + jsSize v2')) v1 v2 le_rfl (le_max_left _ _)]
  rw [testKeysF_fuel (jsSize v1' + jsSize v2')
    (max (jsSize v1 + jsSize v2) (jsSize v1' + jsSize v2')) v1' v2' le_rfl (le_max_right _ _)]
  exact testKeysF_prop_congr hk1 hk2 h1 h2

/-- The map comparator on two objects depends only on their sorted entry
sequences and key lookup maps: permuting duplicate-free, tie-free field
lists does not change the result. -/
theorem nestedObj_mkObj_perm {i i' j j' : Nat}
    {l1 l1' l2 l2' : List (String × JSVal)}
    (hp1 : List.Perm l1 l1') (hnd1e : (l1.map entryStr).Nodup)
    (hnd1k : (l1.map Prod.fst).Nodup)
    (hp2 : List.Perm l2 l2') (hnd2e : (l2.map entryStr).Nodup)
    (hnd2k : (l2.map Prod.fst).Nodup) :
    nestedObj (mkObj i l1) (mkObj j l2) = nestedObj (mkObj i' l1') (mkObj j' l2') := by
  have hO : ∀ (a : Nat) (l : List (String × JSVal)), isObject (mkObj a l) = true :=
    fun a l => rfl
  have hse1 : sortEntries (jsEntries (mkObj i l1)) = sortEntries (jsEntries (mkObj i' l1')) := by
    rw [jsEntries_mkObj, jsEntries_mkObj]; exact sortEntries_eq_of_perm hp1 hnd1e
  have hse2 : sortEntries (jsEntries (mkObj j l2)) = sortEntries (jsEntries (mkObj j' l2')) := by
    rw [jsEntries_mkObj, jsEntries_mkObj]; exact sortEntries_eq_of_perm hp2 hnd2e
  by_cases hL : (sortEntries (jsEntries (mkObj i l1))).length
      = (sortEntries (jsEntries (mkObj j l2))).length
  · cases he1 : sortEntries (jsEntries (mkObj i l1)) with
    | nil =>
      have he2 : sortEntries (jsEntries (mkObj j l2)) = [] := by
        rw [he1] at hL
        exact List.length_eq_zero.mp hL.symm
      rw [nestedObj_empty (hO i l1) (hO j l2) he1 he2,
        nestedObj_empty (hO i' l1') (hO j' l2') (hse1 ▸ he1) (hse2 ▸ he2)]
    | cons e1 r1 =>
      cases he2 : sortEntries (jsEntries (mkObj j l2)) with
      | nil => rw [he1, he2] at hL; exact absurd hL (by simp)
      | cons e2 r2 =>
        obtain ⟨k1, w1⟩ := e1; obtain ⟨k2, w2⟩ := e2
        rw [nestedObj_first_pair (hO i l1) (hO j l2) he1 he2 hL,
          nestedObj_first_pair (hO i' l1') (hO j' l2') (hse1 ▸ he1) (hse2 ▸ he2)
            (hse1 ▸ hse2 ▸ hL)]
        by_cases hw : (isObject w1 && isObject w2) = true
        · rw [if_pos hw, if_pos hw]
        · rw [if_neg hw, if_neg hw]
          by_cases hw2 : (isObject w1 || isObject w2) = true
          · rw [if_pos hw2, if_pos hw2]
          · rw [if_neg hw2, if_neg hw2]
            have hkeys1 : sortStrs (jsKeys (mkObj i l1)) = sortStrs (jsKeys (mkObj i' l1')) := by
              rw [jsKeys, jsKeys, jsEntries_mkObj, jsEntries_mkObj]
              exact sortStrs_eq_of_perm (hp1.map Prod.fst)
            have hkeys2 : sortStrs (jsKeys (mkObj j l2)) = sortStrs (jsKeys (mkObj j' l2')) := by
              rw [jsKeys, jsKeys, jsEntries_mkObj, jsEntries_mkObj]
              exact sortStrs_eq_of_perm (hp2.map Prod.fst)
            rw [testKeys_prop_congr hkeys1 hkeys2
              (getProp_obj_perm hp1 hnd1k) (getProp_obj_perm hp2 hnd2k)]
  · rw [nestedObj_len_ne (hO i l1) (hO j l2) hL,
      nestedObj_len_ne (hO i' l1') (hO j' l2') (by rw [← hse1, ← hse2]; exact hL)]

/-! ## Claim theorems -/

/-- C1 (counterexample): reflexivity fails at `NaN`, an acyclic,
non-function number value of the data model: `NaN === NaN` is false, so
`deepEqual(NaN, NaN)` passes the strict-equality short circuit, reaches
the both-primitives clause and returns `NaN === NaN` again — false, not
true as the claim states. -/
theorem claim1_reflexivity_counterexample :
    jsTypeof JSVal.nan = "number" ∧ jsTypeof JSVal.nan ≠ "function" ∧
      isPrimitive JSVal.nan = true ∧
      deepEqual JSVal.nan JSVal.nan = some false :=
  ⟨by decide, by decide, by decide, by decide⟩

/-- C1 (amended): for every acyclic, non-function value `v` other than
`NaN` itself, `deepEqual v v` returns true: `deepEqual(v, v)` is the
same-reference pair and the strict-equality short circuit fires.  Strict
equality is reflexive everywhere except at the primitive `NaN`; values
merely containing `NaN` are unaffected, since a compound is strictly
equal to itself by reference (all values of the model are acyclic; the
non-function restriction is kept as a hypothesis although the short
circuit does not need it). -/
theorem claim1_reflexivity_amended (v : JSVal) (_h1 : jsTypeof v ≠ "function")
    (h2 : v ≠ JSVal.nan) : deepEqual v v = some true :=
  deepEqual_of_strictEq (strictEq_refl_of_ne_nan h2)

theorem claim1_reflexivity_amended_witness :
    (jsTypeof (mkObj 0 [("a", JSVal.num 7)]) ≠ "function" ∧
      mkObj 0 [("a", JSVal.num 7)] ≠ JSVal.nan ∧
      deepEqual (mkObj 0 [("a", JSVal.num 7)]) (mkObj 0 [("a", JSVal.num 7)]) = some true) ∧
    (jsTypeof (mkArr 1 [JSVal.nan]) ≠ "function" ∧
      mkArr 1 [JSVal.nan] ≠ JSVal.nan ∧
      deepEqual (mkArr 1 [JSVal.nan]) (mkArr 1 [JSVal.nan]) = some true) :=
  ⟨⟨by decide, by decide, claim1_reflexivity_amended _ (by decide) (by decide)⟩,
   ⟨by decide, by decide, claim1_reflexivity_amended _ (by decide) (by decide)⟩⟩

/-- C2 (counterexample): symmetry fails on the code as claimed.  For
`v1 = {a: undefined}` and `v2 = {b: 5}` (distinct objects), `deepEqual`
iterates only `v1`'s keys in `testKeys`, finds `v1.a == v2.a`
(`undefined == undefined`) and returns true, while the flipped call
compares `5` against `undefined` and returns false. -/
theorem claim2_symmetry_counterexample :
    deepEqual (mkObj 0 [("a", JSVal.undef)]) (mkObj 1 [("b", JSVal.num 5)]) = some true ∧
    deepEqual (mkObj 1 [("b", JSVal.num 5)]) (mkObj 0 [("a", JSVal.undef)]) = some false ∧
    deepEqual (mkObj 0 [("a", JSVal.undef)]) (mkObj 1 [("b", JSVal.num 5)]) ≠
      deepEqual (mkObj 1 [("b", JSVal.num 5)]) (mkObj 0 [("a", JSVal.undef)]) :=
  ⟨by decide, by decide, by decide⟩

/-- C2 (amended): `deepEqual(v1, v2) = deepEqual(v2, v1)` holds whenever
the two arguments are not both map-like (non-array) objects; only the
map-object/map-object path (whose `testKeys` iterates the first
argument's keys) is asymmetric. -/
theorem claim2_symmetry_amended (v1 v2 : JSVal)
    (h : isMapObj v1 = false ∨ isMapObj v2 = false) :
    deepEqual v1 v2 = deepEqual v2 v1 :=
  deepEqual_symm_of_not_both_mapObj v1 v2 h

theorem claim2_symmetry_amended_witness :
    (isMapObj (mkArr 0 [JSVal.num 1]) = false ∨
      isMapObj (mkObj 1 [("a", JSVal.num 1)]) = false) ∧
    deepEqual (mkArr 0 [JSVal.num 1]) (mkObj 1 [("a", JSVal.num 1)]) =
      deepEqual (mkObj 1 [("a", JSVal.num 1)]) (mkArr 0 [JSVal.num 1]) :=
  ⟨Or.inl (by decide), claim2_symmetry_amended _ _ (Or.inl (by decide))⟩

/-- C3 (code bug): on the structurally identical nested pair
`{a:{b:[1,2,{c:3}]}}` vs a distinct copy, the code returns FALSE, not
true as the claim (and spec §8) state: the comparison reaches
`testKeys` on the arrays, where the nested non-array objects `{c:3}` are
compared by loose equality — reference equality for two distinct
objects — and rejected instead of recursed.  Changing the deep `c` to 4
also returns false (same path). -/
theorem claim3_nested_equality_code_result :
    deepEqual
        (mkObj 0 [("a", mkObj 1 [("b",
          mkArr 2 [JSVal.num 1, JSVal.num 2, mkObj 3 [("c", JSVal.num 3)]])])])
        (mkObj 10 [("a", mkObj 11 [("b",
          mkArr 12 [JSVal.num 1, JSVal.num 2, mkObj 13 [("c", JSVal.num 3)]])])])
      = some false ∧
    deepEqual
        (mkObj 0 [("a", mkObj 1 [("b",
          mkArr 2 [JSVal.num 1, JSVal.num 2, mkObj 3 [("c", JSVal.num 3)]])])])
        (mkObj 10 [("a", mkObj 11 [("b",
          mkArr 12 [JSVal.num 1, JSVal.num 2, mkObj 13 [("c", JSVal.num 4)]])])])
      = some false :=
  ⟨by decide, by decide⟩

/-- C4 (code bug): for two distinct empty map-like objects the entry loop
of `nestedObj` never runs and the function returns without a value, so
`deepEqual({}, {})` is `undefined` (`none`), not true as the claim and
the spec's intent state; `deepEqual([], [])` is true as claimed. -/
theorem claim4_empty_compounds_code_result :
    deepEqual (mkObj 0 []) (mkObj 1 []) = none ∧
      deepEqual (mkArr 0 []) (mkArr 1 []) = some true :=
  ⟨by decide, by decide⟩

/-- C5: first-nested-pair short circuit.  (1) When the first sorted
entries of both map-like compounds hold compound values, `nestedObj`
returns the result of recursing on that single pair, never examining
later entries.  (2) When the first sorted key of the sequence comparator
has loosely-unequal array values on both sides, `testKeys` returns the
result of recursing on that pair, skipping the remaining keys.  (3) A
concrete consequence: two maps that differ in their later `b` entry
compare equal because the first, compound-valued `a` pair matches. -/
theorem claim5_first_pair_short_circuit :
    (∀ (t1 t2 : JSVal) (k1 k2 : String) (w1 w2 : JSVal)
        (r1 r2 : List (String × JSVal)),
      isObject t1 = true → isObject t2 = true →
      sortEntries (jsEntries t1) = (k1, w1) :: r1 →
      sortEntries (jsEntries t2) = (k2, w2) :: r2 →
      (sortEntries (jsEntries t1)).length = (sortEntries (jsEntries t2)).length →
      isObject w1 = true → isObject w2 = true →
      nestedObj t1 t2 = nestedObj w1 w2) ∧
    (∀ (v1 v2 : JSVal) (k : String) (ks : List String),
      sortStrs (jsKeys v1) = k :: ks →
      (sortStrs (jsKeys v1)).length = (sortStrs (jsKeys v2)).length →
      looseEq (getProp v1 k) (getProp v2 k) = false →
      isArray (getProp v1 k) = true → isArray (getProp v2 k) = true →
      testKeys v1 v2 = testKeys (getProp v1 k) (getProp v2 k)) ∧
    deepEqual (mkObj 0 [("a", mkObj 1 [("x", JSVal.num 1)]), ("b", JSVal.num 1)])
        (mkObj 2 [("a", mkObj 3 [("x", JSVal.num 1)]), ("b", JSVal.num 2)]) = some true ∧
    getProp (mkObj 0 [("a", mkObj 1 [("x", JSVal.num 1)]), ("b", JSVal.num 1)]) "b" ≠
      getProp (mkObj 2 [("a", mkObj 3 [("x", JSVal.num 1)]), ("b", JSVal.num 2)]) "b" := by
  refine ⟨?_, ?_, by decide, by decide⟩
  · intro t1 t2 k1 k2 w1 w2 r1 r2 hO1 hO2 he1 he2 hL hw1 hw2
    rw [nestedObj_first_pair hO1 hO2 he1 he2 hL, if_pos (by simp [hw1, hw2])]
  · intro v1 v2 k ks hkeys hL hl ha1 ha2
    rw [testKeys_eq, if_neg (by omega), hkeys, testKeysGo, if_pos hl,
      if_pos (by simp [ha1, ha2])]

theorem claim5_first_pair_short_circuit_witness :
    nestedObj (mkObj 4 [("a", mkObj 5 [("x", JSVal.num 1)]), ("b", JSVal.num 1)])
        (mkObj 6 [("a", mkObj 7 [("x", JSVal.num 1)]), ("b", JSVal.num 2)])
      = nestedObj (mkObj 5 [("x", JSVal.num 1)]) (mkObj 7 [("x", JSVal.num 1)]) ∧
    testKeys (mkArr 8 [mkArr 9 [JSVal.num 1], JSVal.num 5])
        (mkArr 10 [mkArr 11 [JSVal.num 1], JSVal.num 6])
      = testKeys (mkArr 9 [JSVal.num 1]) (mkArr 11 [JSVal.num 1]) :=
  ⟨claim5_first_pair_short_circuit.1 _ _ "a" "a" (mkObj 5 [("x", JSVal.num 1)])
      (mkObj 7 [("x", JSVal.num 1)]) [("b", JSVal.num 1)] [("b", JSVal.num 2)]
      (by decide) (by decide) (by decide) (by decide) (by decide) (by decide) (by decide),
   claim5_first_pair_short_circuit.2.1 _ _ "0" ["1"]
      (by decide) (by decide) (by decide) (by decide) (by decide)⟩

/-- C6: type-class rejection: `deepEqual(5, "5")`, `deepEqual(null, {})`
and `deepEqual([], {})` are all false; in general a primitive against a
non-primitive of runtime kind "object" (either order) is rejected by the
third clause of the top-level comparator, and an array against a
non-array compound is rejected by the tag check. -/
theorem claim6_type_class_rejection :
    deepEqual (JSVal.num 5) (JSVal.str "5") = some false ∧
    deepEqual JSVal.null (mkObj 0 []) = some false ∧
    deepEqual (mkArr 0 []) (mkObj 1 []) = some false ∧
    (∀ v1 v2 : JSVal, isPrimitive v1 = true → isPrimitive v2 = false →
      jsTypeof v2 = "object" → deepEqual v1 v2 = some false) ∧
    (∀ v1 v2 : JSVal, isPrimitive v1 = false → jsTypeof v1 = "object" →
      isPrimitive v2 = true → deepEqual v1 v2 = some false) ∧
    (∀ v1 v2 : JSVal, isObject v1 = true → isObject v2 = true →
      isArray v1 ≠ isArray v2 → deepEqual v1 v2 = some false) := by
  refine ⟨by decide, by decide, by decide, ?_, ?_, ?_⟩
  · intro v1 v2 hp1 hp2f ht2
    have hne : v1 ≠ v2 := fun he => by
      rw [he, hp2f] at hp1; exact Bool.noConfusion hp1
    exact deepEqual_prim_obj (by simp [hp1, ht2]) (strictEq_false_of_ne hne)
      (by simp [hp2f])
  · intro v1 v2 hp1f ht1 hp2
    have hne : v1 ≠ v2 := fun he => by
      rw [he, hp2] at hp1f; exact Bool.noConfusion hp1f
    exact deepEqual_prim_obj (by simp [hp2, ht1]) (strictEq_false_of_ne hne)
      (by simp [hp1f])
  · intro v1 v2 hO1 hO2 hA
    have hne : v1 ≠ v2 := fun he => by rw [he] at hA; exact hA rfl
    rw [deepEqual_both_obj hO1 hO2 (strictEq_false_of_ne hne),
      if_pos (by cases h1 : isArray v1 <;> cases h2 : isArray v2 <;> simp_all)]

theorem claim6_type_class_rejection_witness :
    deepEqual (JSVal.num 3) (mkObj 7 []) = some false ∧
    deepEqual (mkObj 7 []) (JSVal.num 3) = some false ∧
    deepEqual (mkArr 8 []) (mkObj 9 []) = some false :=
  ⟨claim6_type_class_rejection.2.2.2.1 _ _ (by decide) (by decide) (by decide),
   claim6_type_class_rejection.2.2.2.2.1 _ _ (by decide) (by decide) (by decide),
   claim6_type_class_rejection.2.2.2.2.2 _ _ (by decide) (by decide) (by decide)⟩

/-- C7: cross-kind false-positive guard: `deepEqual({a:1}, {a:"1"})` is
false; in the sequence comparator, when the first examined key holds
loosely (coercively) equal values of different runtime kinds, the pair
is rejected by the `typeof` check. -/
theorem claim7_cross_kind_guard :
    deepEqual (mkObj 0 [("a", JSVal.num 1)]) (mkObj 1 [("a", JSVal.str "1")])
      = some false ∧
    (∀ (v1 v2 : JSVal) (k : String) (ks : List String),
      sortStrs (jsKeys v1) = k :: ks →
      (sortStrs (jsKeys v1)).length = (sortStrs (jsKeys v2)).length →
      looseEq (getProp v1 k) (getProp v2 k) = true →
      jsTypeof (getProp v1 k) ≠ jsTypeof (getProp v2 k) →
      testKeys v1 v2 = false) := by
  refine ⟨by decide, ?_⟩
  intro v1 v2 k ks hkeys hL hl ht
  rw [testKeys_eq, if_neg (by omega), hkeys, testKeysGo, if_neg (by simp [hl]),
    if_pos (by simp [bne_iff_ne, ht])]

theorem claim7_cross_kind_guard_witness :
    testKeys (mkObj 2 [("a", JSVal.num 1)]) (mkObj 3 [("a", JSVal.str "1")]) = false :=
  claim7_cross_kind_guard.2 _ _ "a" []
    (by decide) (by decide) (by decide) (by decide)

/-- C8 (counterexample): insertion order can change the result.  The two
entries of `{"a": ["b","c"], "a,b": ["c"]}` stringify identically
(`"a,b,c"`), so the stable entry sort keeps insertion order; against a
fixed first argument, the same key-value collection inserted in the two
orders yields true in one order and false in the other (the first sorted
pair recursed on differs). -/
theorem claim8_order_insensitivity_counterexample :
    deepEqual
        (mkObj 0 [("a", mkArr 1 [JSVal.str "b", JSVal.str "c"]),
          ("a,b", mkArr 2 [JSVal.str "c"])])
        (mkObj 3 [("a", mkArr 4 [JSVal.str "b", JSVal.str "c"]),
          ("a,b", mkArr 5 [JSVal.str "c"])])
      = some true ∧
    deepEqual
        (mkObj 0 [("a", mkArr 1 [JSVal.str "b", JSVal.str "c"]),
          ("a,b", mkArr 2 [JSVal.str "c"])])
        (mkObj 6 [("a,b", mkArr 5 [JSVal.str "c"]),
          ("a", mkArr 4 [JSVal.str "b", JSVal.str "c"])])
      = some false ∧
    List.Perm
      [("a,b", mkArr 5 [JSVal.str "c"]), ("a", mkArr 4 [JSVal.str "b", JSVal.str "c"])]
      [("a", mkArr 4 [JSVal.str "b", JSVal.str "c"]), ("a,b", mkArr 5 [JSVal.str "c"])] :=
  ⟨by decide, by decide, List.Perm.swap _ _ _⟩

/-- C8 (amended): `deepEqual({a:1, b:2}, {b:2, a:1})` is true, and for
distinct-reference comparisons of map-like objects with duplicate-free
keys whose entry strings are pairwise distinct (no sort ties), the result
is invariant under permuting the field lists: equality is determined by
each argument's key-sorted entry sequence.  (With entry-string ties the
stable sort preserves insertion order and the result can depend on it,
giving the counterexample.) -/
theorem claim8_order_insensitivity_amended :
    deepEqual (mkObj 0 [("a", JSVal.num 1), ("b", JSVal.num 2)])
        (mkObj 1 [("b", JSVal.num 2), ("a", JSVal.num 1)]) = some true ∧
    (∀ (i i' j j' : Nat) (l1 l1' l2 l2' : List (String × JSVal)),
      List.Perm l1 l1' → (l1.map entryStr).Nodup → (l1.map Prod.fst).Nodup →
      List.Perm l2 l2' → (l2.map entryStr).Nodup → (l2.map Prod.fst).Nodup →
      strictEq (mkObj i l1) (mkObj j l2) = false →
      strictEq (mkObj i' l1') (mkObj j' l2') = false →
      deepEqual (mkObj i l1) (mkObj j l2) = deepEqual (mkObj i' l1') (mkObj j' l2')) := by
  refine ⟨by decide, ?_⟩
  intro i i' j j' l1 l1' l2 l2' hp1 hnd1e hnd1k hp2 hnd2e hnd2k hs hs'
  rw [deepEqual_both_obj (show isObject (mkObj i l1) = true from rfl)
      (show isObject (mkObj j l2) = true from rfl) hs,
    deepEqual_both_obj (show isObject (mkObj i' l1') = true from rfl)
      (show isObject (mkObj j' l2') = true from rfl) hs']
  rw [if_neg (show ¬(isArray (mkObj i l1) != isArray (mkObj j l2)) = true from
      fun hh => Bool.false_ne_true hh)]
  rw [if_pos (show (isArray (mkObj i l1) == false && isArray (mkObj i l1) == false) = true
      from rfl)]
  rw [if_neg (show ¬(isArray (mkObj i' l1') != isArray (mkObj j' l2')) = true from
      fun hh => Bool.false_ne_true hh)]
  rw [if_pos (show (isArray (mkObj i' l1') == false && isArray (mkObj i' l1') == false) = true
      from rfl)]
  exact nestedObj_mkObj_perm hp1 hnd1e hnd1k hp2 hnd2e hnd2k

theorem claim8_order_insensitivity_amended_witness :
    deepEqual (mkObj 2 [("a", JSVal.num 1), ("b", JSVal.num 2)])
        (mkObj 3 [("x", JSVal.num 9)])
      = deepEqual (mkObj 4 [("b", JSVal.num 2), ("a", JSVal.num 1)])
        (mkObj 5 [("x", JSVal.num 9)]) :=
  claim8_order_insensitivity_amended.2 2 4 3 5 _ _ _ _
    (List.Perm.swap ("b", JSVal.num 2) ("a", JSVal.num 1) [])
    (by decide) (by decide) (List.Perm.refl _) (by decide) (by decide)
    (by decide) (by decide)

/-- C9 (counterexample): the claim states every input pair covered by the
top-level clauses returns an explicit boolean, but a pair of two distinct
empty map-like objects is covered by the compound clause (both classify
as objects, neither is a function) and still yields no boolean: the map
comparator falls through and the result is `undefined` (`none`). -/
theorem claim9_fallthrough_counterexample :
    isObject (mkObj 20 []) = true ∧ isObject (mkObj 21 []) = true ∧
    jsTypeof (mkObj 20 []) ≠ "function" ∧ jsTypeof (mkObj 21 []) ≠ "function" ∧
    deepEqual (mkObj 20 []) (mkObj 21 []) = none :=
  ⟨by decide, by decide, by decide, by decide, by decide⟩

/-- C9 (amended): `deepEqual` never raises (it is a total function of the
model); a non-identical function value on either side falls through the
top-level clauses and yields `undefined` (`none`); every other pair
returns an explicit boolean EXCEPT certain pairs of map-like (non-array)
objects, for which the map comparator itself can fall through — e.g. two
distinct empty objects. -/
theorem claim9_fallthrough_amended :
    (∀ v1 v2 : JSVal, (jsTypeof v1 = "function" ∨ jsTypeof v2 = "function") →
      strictEq v1 v2 = false → deepEqual v1 v2 = none) ∧
    (∀ v1 v2 : JSVal, jsTypeof v1 ≠ "function" → jsTypeof v2 ≠ "function" →
      (isMapObj v1 = false ∨ isMapObj v2 = false) →
      (deepEqual v1 v2).isSome = true) ∧
    deepEqual (mkObj 22 []) (mkObj 23 []) = none := by
  refine ⟨?_, ?_, by decide⟩
  · intro v1 v2 hf hs
    rcases hf with hf | hf
    · exact deepEqual_func_left hf hs
    · exact deepEqual_func_right hf hs
  · intro v1 v2 hf1 hf2 hm
    by_cases hst : strictEq v1 v2 = true
    · rw [deepEqual_of_strictEq hst]; rfl
    · have hsf := bool_eq_false hst
      by_cases hp1 : isPrimitive v1 = true
      · by_cases hp2 : isPrimitive v2 = true
        · rw [deepEqual_both_prim hp1 hp2]; rfl
        · have hp2f := bool_eq_false hp2
          rcases isPrimitive_shape hp2f with ht2 | ht2
          · rw [deepEqual_prim_obj (by simp [hp1, ht2]) hsf (by simp [hp2f])]; rfl
          · exact absurd ht2 hf2
      · have hp1f := bool_eq_false hp1
        by_cases hp2 : isPrimitive v2 = true
        · rcases isPrimitive_shape hp1f with ht1 | ht1
          · rw [deepEqual_prim_obj (by simp [hp2, ht1]) hsf (by simp [hp1f])]; rfl
          · exact absurd ht1 hf1
        · have hp2f := bool_eq_false hp2
          rcases isPrimitive_shape hp1f with ht1 | ht1
          · rcases isPrimitive_shape hp2f with ht2 | ht2
            · have hO1 := isObject_of_typeof hp1f ht1
              have hO2 := isObject_of_typeof hp2f ht2
              rw [deepEqual_both_obj hO1 hO2 hsf]
              cases hA1 : isArray v1 with
              | true =>
                cases hA2 : isArray v2 with
                | true => rw [if_neg (by simp [hA1, hA2]), if_neg (by simp [hA1])]; rfl
                | false => rw [if_pos (by simp [hA1, hA2])]; rfl
              | false =>
                cases hA2 : isArray v2 with
                | true => rw [if_pos (by simp [hA1, hA2])]; rfl
                | false =>
                  have hM1 : isMapObj v1 = true := by simp [isMapObj, hO1, hA1]
                  have hM2 : isMapObj v2 = true := by simp [isMapObj, hO2, hA2]
                  rcases hm with hcontra | hcontra <;> simp_all
            · exact absurd ht2 hf2
          · exact absurd ht1 hf1

theorem claim9_fallthrough_amended_witness :
    deepEqual (JSVal.func 0) (JSVal.num 1) = none ∧
      (deepEqual (JSVal.num 3) (JSVal.str "a")).isSome = true :=
  ⟨claim9_fallthrough_amended.1 _ _ (Or.inl (by decide)) (by decide),
   claim9_fallthrough_amended.2.1 _ _ (by decide) (by decide) (Or.inl (by decide))⟩

/-- C10: key names are never compared directly in the sequence
comparator: `{a: undefined}` and `{b: undefined}` have disjoint key sets
of equal size, yet compare deep-equal, because each key of the first
object is looked up in both objects and the absent key yields
`undefined`, which is loosely equal to `undefined` with matching runtime
kind. -/
theorem claim10_disjoint_keys :
    deepEqual (mkObj 0 [("a", JSVal.undef)]) (mkObj 1 [("b", JSVal.undef)]) = some true ∧
    jsKeys (mkObj 0 [("a", JSVal.undef)]) = ["a"] ∧
    jsKeys (mkObj 1 [("b", JSVal.undef)]) = ["b"] ∧
    getProp (mkObj 1 [("b", JSVal.undef)]) "a" = JSVal.undef :=
  ⟨by decide, by decide, by decide, by decide⟩

end DeepEqualJS
